import Mathlib

/-!
Verification of the task-extraction heuristic and the issue-creation
fan-out of the github-roadmap-api repository.

Strings are modelled as lists of characters (`Str`), so that JavaScript
string operations (`trim`, `split`, `substring`, `length`, regex
matching) become explicit list functions.  The two functions under
study, `extractTasksFromText` and `createGitHubIssues`, are translated
directly from the source file; the regular expressions of the three
marker rules are compiled by hand into span-based matchers that mirror
the greedy-with-backtracking semantics of the JavaScript engine on the
inputs these matchers receive.
-/

/-- Strings as lists of characters (JS strings, one entry per UTF-16 unit
in the source; all claims are about code points that fit one unit). -/
abbrev Str := List Char

/-- The ECMAScript LineTerminator set: LF, CR, LS, PS.  The regex `.`
matches every character except these. -/
def isLineTerm (c : Char) : Bool :=
  c.val = 10 || c.val = 13 || c.val = 0x2028 || c.val = 0x2029

/-- The character class matched by the JavaScript regex `\s` and removed
by `String.prototype.trim`: the ECMAScript WhiteSpace and LineTerminator
sets (both constructs use the same union). -/
def isWS (c : Char) : Bool :=
  c.val = 32 || c.val = 9 || c.val = 11 || c.val = 12 ||
  c.val = 0xA0 || c.val = 0xFEFF || c.val = 0x1680 ||
  (0x2000 ≤ c.val && c.val ≤ 0x200A) ||
  c.val = 0x202F || c.val = 0x205F || c.val = 0x3000 || isLineTerm c

/-- The character class matched by the JavaScript regex `\d`. -/
def isDigitJS (c : Char) : Bool :=
  48 ≤ c.val && c.val ≤ 57

/-- JavaScript `String.prototype.trim`: drop leading and trailing
whitespace. -/
def trim (l : Str) : Str :=
  ((l.dropWhile isWS).reverse.dropWhile isWS).reverse

/-- JavaScript `text.split('\n')`. -/
def splitNL (text : Str) : List Str :=
  text.splitOn '\n'

/-- The line pipeline of `extractTasksFromText`:
`text.split('\n').map(line => line.trim()).filter(line => line)`. -/
def linesOf (text : Str) : List Str :=
  ((splitNL text).map trim).filter (fun l => !l.isEmpty)

/-- The regex `^\d+\.\s+(.+)$` of rule 1 (numbered lists), compiled to a
span-based matcher.  `\d+` is greedy over a maximal digit run (a shorter
run cannot be followed by `.`, so no backtracking arises there); `\s+`
is greedy over the maximal whitespace run, backing off by one character
when `(.+)` would otherwise be left empty. -/
def numberedMatch (l : Str) : Option Str :=
  let ds := l.takeWhile isDigitJS
  let r1 := l.dropWhile isDigitJS
  match r1 with
  | '.' :: r2 =>
    if ds.isEmpty then none
    else
      let ws := r2.takeWhile isWS
      let rest := r2.dropWhile isWS
      if ws.isEmpty then none
      else if rest.isEmpty then
        if 2 ≤ ws.length && !isLineTerm (ws.getLastD ' ') then
          some [ws.getLastD ' ']
        else none
      else if rest.any isLineTerm then none
      else some rest
  | _ => none

/-- The regex `^[•\-*]\s+(.+)$` of rule 2 (bullet points), compiled to a
span-based matcher with the same `\s+`/`(.+)` backtracking as rule 1. -/
def bulletMatch (l : Str) : Option Str :=
  match l with
  | c :: r2 =>
    if c = '•' || c = '-' || c = '*' then
      let ws := r2.takeWhile isWS
      let rest := r2.dropWhile isWS
      if ws.isEmpty then none
      else if rest.isEmpty then
        if 2 ≤ ws.length && !isLineTerm (ws.getLastD ' ') then
          some [ws.getLastD ' ']
        else none
      else if rest.any isLineTerm then none
      else some rest
    else none
  | [] => none

/-- The regex `^-\s*(.+)$` of rule 3 (leading dash, whitespace optional):
`\s*` is greedy over the maximal whitespace run, backing off by one
character when `(.+)` would otherwise be left empty. -/
def dashMatch (l : Str) : Option Str :=
  match l with
  | '-' :: r2 =>
    let ws := r2.takeWhile isWS
    let rest := r2.dropWhile isWS
    if rest.isEmpty then
      if !ws.isEmpty && !isLineTerm (ws.getLastD ' ') then
        some [ws.getLastD ' ']
      else none
    else if rest.any isLineTerm then none
    else some rest
  | _ => none

/-- The per-line body of the `for` loop of `extractTasksFromText`:
rules 1 to 3 in order, each pushing the trimmed capture, else rule 4
pushing the whole line when it is longer than 3 characters and does not
end with a colon. -/
def lineTask (line : Str) : Option Str :=
  match numberedMatch line with
  | some c => some (trim c)
  | none =>
    match bulletMatch line with
    | some c => some (trim c)
    | none =>
      match dashMatch line with
      | some c => some (trim c)
      | none =>
        if 3 < line.length && line.getLastD ' ' != ':' then some line
        else none

/-- The contents of the `tasks` array after the loop, before the final
dedup filter: one entry per line that produced a task, in line order. -/
def rawTasks (text : Str) : List Str :=
  (linesOf text).filterMap lineTask

/-- The final filter of `extractTasksFromText`:
`tasks.filter((task, index, self) => task.length > 0 && self.indexOf(task) === index)`. -/
def jsDedupFilter (tasks : List Str) : List Str :=
  tasks.enum.filterMap fun p =>
    if 0 < p.2.length ∧ tasks.indexOf p.2 = p.1 then some p.2 else none

/-- `extractTasksFromText` on a string input that passed the guard
`!text || typeof text !== 'string'` only through emptiness:  the empty
string is falsy and returns `[]`, any other string runs the pipeline. -/
def extractTasksFromText (text : Str) : List Str :=
  if text.isEmpty then [] else jsDedupFilter (rawTasks text)

/-- A JavaScript value as far as the guard of `extractTasksFromText`
distinguishes: a string, `null`, or any other non-string value. -/
inductive JSVal where
  | str (s : Str)
  | nullV
  | nonString
deriving DecidableEq

/-- The full `extractTasksFromText`, including the
`!text || typeof text !== 'string'` guard: every non-string input
returns `[]`. -/
def extractTasksJS : JSVal → List Str
  | JSVal.str s => extractTasksFromText s
  | JSVal.nullV => []
  | JSVal.nonString => []

/-- The per-line rule dispatch with rule 3 (`dashMatch`) removed,
the remainder verbatim: the variant the spec asserts is
observationally identical to `lineTask`. -/
def lineTaskNoDash (line : Str) : Option Str :=
  match numberedMatch line with
  | some c => some (trim c)
  | none =>
    match bulletMatch line with
    | some c => some (trim c)
    | none =>
      if 3 < line.length && line.getLastD ' ' != ':' then some line
      else none

/-- `extractTasksFromText` with rule 3 removed. -/
def extractTasksNoDash (text : Str) : List Str :=
  if text.isEmpty then []
  else jsDedupFilter ((linesOf text).filterMap lineTaskNoDash)

/-- A line in which a leading hyphen, if any, is immediately followed by
whitespace.  On such lines rule 2 fires whenever rule 3 could; lines
violating this (such as `-abc`) are exactly where rule 3 is live. -/
def hyphenSpaced : Str → Bool
  | '-' :: c :: _ => isWS c
  | _ => true

/-- The options object of `createGitHubIssues` after the destructuring
`const \x7b labels = [], assignee = null \x7d = options` and the
`Array.isArray(labels) ? labels : []` normalisation. -/
structure IssueOptions where
  labels : List Str
  assignee : Option Str
deriving DecidableEq

/-- The `issueParams` object passed to `octokit.issues.create`, with
`assignees` present only when an assignee was supplied. -/
structure IssueParams where
  owner : Str
  repo : Str
  title : Str
  body : Str
  labels : List Str
  assignees : Option (List Str)
deriving DecidableEq

/-- The fields of `response.data` that `createGitHubIssues` reads:
`number`, `title`, `html_url`. -/
structure RespData where
  number : Nat
  title : Str
  html_url : Str
deriving DecidableEq

/-- One element of the `createdIssues` array: on success the object
`\x7b number, title, url \x7d` built from the response, on failure the
object `\x7b task, error \x7d`. -/
inductive IssueResult where
  | success (number : Nat) (title : Str) (url : Str)
  | failure (task : Str) (error : Str)
deriving DecidableEq

/-- Whether a result record is a failure record (in the JavaScript
caller this is the `i.error` presence test). -/
def IssueResult.isFailure : IssueResult → Bool
  | IssueResult.success _ _ _ => false
  | IssueResult.failure _ _ => true

/-- The `issueParams` construction of one loop iteration:
`title: task.substring(0, 100)`,
`body: task.length > 100 ? task : 'Task: ' + task`,
plus the pass-through of owner, repo, labels and assignee. -/
def buildIssueParams (owner repo : Str) (options : IssueOptions)
    (task : Str) : IssueParams :=
  { owner := owner
    repo := repo
    title := task.take 100
    body := if 100 < task.length then task else "Task: ".toList ++ task
    labels := options.labels
    assignees := options.assignee.map (fun a => [a]) }

/-- The GitHub client (`octokit.issues.create`) as the fan-out loop
observes it: each sequential call (numbered by its position in the
batch) either resolves with response data or rejects with an error
message. -/
abbrev GitHubClient := Nat → IssueParams → Except Str RespData

/-- `createGitHubIssues`: the sequential per-task loop with local
try/catch, pushing one record per task — the success object
`\x7b number, title, url \x7d` or the failure object
`\x7b task, error \x7d`. -/
def createGitHubIssues (github : GitHubClient) (owner repo : Str)
    (tasks : List Str) (options : IssueOptions) : List IssueResult :=
  tasks.enum.map fun p =>
    match github p.1 (buildIssueParams owner repo options p.2) with
    | Except.ok d => IssueResult.success d.number d.title d.html_url
    | Except.error e => IssueResult.failure p.2 e

/-! ### Helper lemmas about the dedup filter -/

theorem filterMap_ite {α β : Type} (q : α → Prop) [DecidablePred q]
    (g : α → β) (l : List α) :
    (l.filterMap fun x => if q x then some (g x) else none) =
      (l.filter fun x => decide (q x)).map g := by
  induction l with
  | nil => rfl
  | cons x xs ih =>
    by_cases hx : q x <;>
      simp [List.filterMap_cons, List.filter_cons, hx, ih]

theorem enum_nodup {α : Type} (l : List α) : l.enum.Nodup :=
  List.Nodup.of_map Prod.fst
    (by rw [List.enum_map_fst]; exact List.nodup_range _)

theorem indexOf_getElem?_self (t : Str) :
    ∀ l : List Str, t ∈ l → l[l.indexOf t]? = some t := by
  intro l
  induction l with
  | nil => intro h; cases h
  | cons x xs ih =>
    intro h
    by_cases hx : x = t
    · subst hx
      simp [List.indexOf_cons]
    · have ht : t ∈ xs := by
        rcases List.mem_cons.mp h with h1 | h1
        · exact absurd h1.symm hx
        · exact h1
      have hbeq : (x == t) = false := by
        simp [hx]
      simp [List.indexOf_cons, hbeq, ih ht]

theorem jsDedupFilter_eq (l : List Str) :
    jsDedupFilter l =
      (l.enum.filter fun p =>
        decide (0 < p.2.length ∧ l.indexOf p.2 = p.1)).map Prod.snd := by
  unfold jsDedupFilter
  exact filterMap_ite _ _ _

theorem mem_jsDedupFilter {l : List Str} {t : Str} :
    t ∈ jsDedupFilter l ↔ t ∈ l ∧ t ≠ [] := by
  rw [jsDedupFilter_eq]
  constructor
  · intro ht
    rcases List.mem_map.mp ht with ⟨p, hp, rfl⟩
    rcases List.mem_filter.mp hp with ⟨hpe, hcond⟩
    have hcond' := of_decide_eq_true hcond
    have hmem : p.2 ∈ l := by
      have := List.mem_map_of_mem Prod.snd hpe
      rwa [List.enum_map_snd] at this
    refine ⟨hmem, ?_⟩
    intro h
    rw [h] at hcond'
    simp at hcond'
  · rintro ⟨hmem, hne⟩
    apply List.mem_map.mpr
    refine ⟨(l.indexOf t, t), ?_, rfl⟩
    apply List.mem_filter.mpr
    refine ⟨?_, ?_⟩
    · exact List.mem_enum_iff_getElem?.mpr (indexOf_getElem?_self t l hmem)
    · exact decide_eq_true ⟨List.length_pos.mpr hne, rfl⟩

theorem nodup_jsDedupFilter (l : List Str) : (jsDedupFilter l).Nodup := by
  rw [jsDedupFilter_eq]
  apply List.Nodup.map_on
  · intro x hx y hy hxy
    have cx := of_decide_eq_true (List.mem_filter.mp hx).2
    have cy := of_decide_eq_true (List.mem_filter.mp hy).2
    have h1 : x.1 = y.1 := by rw [← cx.2, ← cy.2, hxy]
    exact Prod.ext h1 hxy
  · exact (enum_nodup l).filter _

theorem pairwise_jsDedupFilter (l : List Str) :
    (jsDedupFilter l).Pairwise fun a b => l.indexOf a < l.indexOf b := by
  rw [jsDedupFilter_eq]
  apply List.pairwise_map.mpr
  have h0 : (l.enum.map Prod.fst).Pairwise (· < ·) := by
    rw [List.enum_map_fst]
    exact List.pairwise_lt_range _
  have h1 : l.enum.Pairwise fun p q => p.1 < q.1 := List.pairwise_map.mp h0
  have h2 := List.Pairwise.sublist
    (@List.filter_sublist _
      (fun p => decide (0 < p.2.length ∧ l.indexOf p.2 = p.1)) l.enum)
    h1
  refine List.Pairwise.imp_of_mem ?_ h2
  intro a b ha hb hr
  have ca := of_decide_eq_true (List.mem_filter.mp ha).2
  have cb := of_decide_eq_true (List.mem_filter.mp hb).2
  rw [ca.2, cb.2]
  exact hr

theorem sublist_jsDedupFilter (l : List Str) :
    List.Sublist (jsDedupFilter l) l := by
  rw [jsDedupFilter_eq]
  have h1 : List.Sublist
      (l.enum.filter fun p =>
        decide (0 < p.2.length ∧ l.indexOf p.2 = p.1)) l.enum :=
    List.filter_sublist _
  have h2 := h1.map Prod.snd
  rwa [List.enum_map_snd] at h2

theorem extractTasksFromText_eq (text : Str) :
    extractTasksFromText text = jsDedupFilter (rawTasks text) := by
  cases text with
  | nil => rfl
  | cons c cs => rfl

/-! ### Helper lemmas about trimming -/

theorem trim_eq_rdropWhile (l : Str) :
    trim l = (l.dropWhile isWS).rdropWhile isWS := rfl

theorem trim_idem (l : Str) : trim (trim l) = trim l := by
  rw [trim_eq_rdropWhile, trim_eq_rdropWhile]
  have hdw : (l.dropWhile isWS).dropWhile isWS = l.dropWhile isWS :=
    List.dropWhile_idempotent isWS l
  have hpre := List.rdropWhile_prefix isWS (l.dropWhile isWS)
  have hhead : ((l.dropWhile isWS).rdropWhile isWS).dropWhile isWS =
      (l.dropWhile isWS).rdropWhile isWS := by
    rw [List.dropWhile_eq_self_iff]
    intro hl
    have hlen : 0 < (l.dropWhile isWS).length :=
      lt_of_lt_of_le hl hpre.length_le
    have hget := hpre.getElem hl
    rw [List.get_eq_getElem, hget]
    have := List.dropWhile_eq_self_iff.mp hdw hlen
    rwa [List.get_eq_getElem] at this
  rw [hhead, List.rdropWhile_idempotent]

theorem dropWhile_eq_self_of_trim_eq {l : Str} (h : trim l = l) :
    l.dropWhile isWS = l := by
  have hsuf : List.IsSuffix (l.dropWhile isWS) l := List.dropWhile_suffix isWS
  apply hsuf.eq_of_length
  have e1 : l.length ≤ (l.dropWhile isWS).length := by
    conv_lhs => rw [← h, trim_eq_rdropWhile]
    have hp := List.rdropWhile_prefix isWS (l.dropWhile isWS)
    exact hp.length_le
  have e2 : (l.dropWhile isWS).length ≤ l.length := hsuf.length_le
  omega

theorem getLast_not_ws_of_trim_eq {l : Str} (h : trim l = l) (hne : l ≠ []) :
    ¬ isWS (l.getLast hne) := by
  have h2 : l.rdropWhile isWS = l := by
    have := h
    rw [trim_eq_rdropWhile, dropWhile_eq_self_of_trim_eq h] at this
    exact this
  exact List.rdropWhile_eq_self_iff.mp h2 hne

theorem mem_linesOf {text l : Str} (h : l ∈ linesOf text) :
    l ≠ [] ∧ trim l = l := by
  rcases List.mem_filter.mp h with ⟨hmap, hne⟩
  constructor
  · intro he
    rw [he] at hne
    simp at hne
  · rcases List.mem_map.mp hmap with ⟨s, _, rfl⟩
    exact trim_idem s

theorem trim_of_mem_rawTasks {text t : Str} (h : t ∈ rawTasks text) :
    trim t = t := by
  rcases List.mem_filterMap.mp h with ⟨line, hline, htask⟩
  cases hn : numberedMatch line with
  | some c =>
    simp only [lineTask, hn] at htask
    rw [← Option.some_inj.mp htask]
    exact trim_idem c
  | none =>
    cases hb : bulletMatch line with
    | some c =>
      simp only [lineTask, hn, hb] at htask
      rw [← Option.some_inj.mp htask]
      exact trim_idem c
    | none =>
      cases hd : dashMatch line with
      | some c =>
        simp only [lineTask, hn, hb, hd] at htask
        rw [← Option.some_inj.mp htask]
        exact trim_idem c
      | none =>
        simp only [lineTask, hn, hb, hd] at htask
        split at htask
        · rw [← Option.some_inj.mp htask]
          exact (mem_linesOf hline).2
        · cases htask

/-! ### Rule 2 versus rule 3 -/

theorem dashMatch_eq_none_of_bulletMatch_eq_none {l : Str}
    (hne : l ≠ []) (htr : trim l = l) (hh : hyphenSpaced l = true)
    (hb : bulletMatch l = none) : dashMatch l = none := by
  cases l with
  | nil => exact absurd rfl hne
  | cons c0 r2 =>
    by_cases hc : c0 = '-'
    · subst hc
      cases r2 with
      | nil => rfl
      | cons c1 r =>
        have hws : isWS c1 = true := by simpa [hyphenSpaced] using hh
        by_cases hrest : ((c1 :: r).dropWhile isWS).isEmpty
        · exfalso
          have hnil : (c1 :: r).dropWhile isWS = [] := by
            simpa [List.isEmpty_iff] using hrest
          have hall := List.dropWhile_eq_nil_iff.mp hnil
          have hlast := getLast_not_ws_of_trim_eq htr hne
          have hmem : ('-' :: c1 :: r).getLast hne ∈ c1 :: r := by
            rw [List.getLast_cons (List.cons_ne_nil c1 r)]
            exact List.getLast_mem _
          exact hlast (hall _ hmem)
        · have hd : List.dropWhile isWS (c1 :: r) = List.dropWhile isWS r :=
            List.dropWhile_cons_of_pos hws
          have hrest' : (List.dropWhile isWS r).isEmpty = false := by
            rw [← hd]
            exact Bool.not_eq_true _ ▸ hrest
          have hany : (List.dropWhile isWS r).any isLineTerm = true := by
            by_contra hno
            have hno' : (List.dropWhile isWS r).any isLineTerm = false :=
              Bool.not_eq_true _ ▸ hno
            have hbul : bulletMatch ('-' :: c1 :: r) =
                some (List.dropWhile isWS r) := by
              simp [bulletMatch, List.takeWhile_cons_of_pos hws, hd,
                hrest', hno']
            rw [hb] at hbul
            cases hbul
          simp [dashMatch, hd, hrest', hany]
    · unfold dashMatch
      split
      · rename_i r2' heq
        injection heq with h1 _
        exact absurd h1 hc
      · rfl

theorem lineTask_eq_noDash {l : Str} (hne : l ≠ []) (htr : trim l = l)
    (hh : hyphenSpaced l = true) : lineTask l = lineTaskNoDash l := by
  cases hn : numberedMatch l with
  | some c => simp [lineTask, lineTaskNoDash, hn]
  | none =>
    cases hb : bulletMatch l with
    | some c => simp [lineTask, lineTaskNoDash, hn, hb]
    | none =>
      have hd := dashMatch_eq_none_of_bulletMatch_eq_none hne htr hh hb
      simp [lineTask, lineTaskNoDash, hn, hb, hd]

/-! ### Helper lemmas about the fan-out -/

theorem createGitHubIssues_getElem? (github : GitHubClient)
    (owner repo : Str) (tasks : List Str) (options : IssueOptions)
    (i : Nat) :
    (createGitHubIssues github owner repo tasks options)[i]? =
      tasks[i]?.map fun task =>
        match github i (buildIssueParams owner repo options task) with
        | Except.ok d => IssueResult.success d.number d.title d.html_url
        | Except.error e => IssueResult.failure task e := by
  unfold createGitHubIssues
  rw [List.getElem?_map, List.getElem?_enum]
  cases tasks[i]? <;> rfl

theorem createGitHubIssues_length (github : GitHubClient)
    (owner repo : Str) (tasks : List Str) (options : IssueOptions) :
    (createGitHubIssues github owner repo tasks options).length =
      tasks.length := by
  unfold createGitHubIssues
  rw [List.length_map, List.enum_length]

theorem countP_range_eq_one {k n : Nat} (h : k < n) :
    ((List.range n).countP fun j => decide (j = k)) = 1 := by
  induction n with
  | zero => omega
  | succ n ih =>
    rw [List.range_succ, List.countP_append]
    by_cases hk : k < n
    · have hnk : (decide (n = k)) = false := decide_eq_false (by omega)
      rw [ih hk]
      simp [List.countP_cons, hnk]
    · have hkn : k = n := by omega
      subst hkn
      have h0 : ((List.range k).countP fun j => decide (j = k)) = 0 :=
        List.countP_eq_zero.mpr fun a ha => by
          have := List.mem_range.mp ha
          simp only [decide_eq_true_eq]
          omega
      simp [h0, List.countP_cons]

/-! ### The claims -/

/-- C5: on the exact input `1. Buy milk\n- Call Bob\nSummary:\nShort`,
extraction returns exactly `Buy milk`, `Call Bob`, `Short`: the
colon-terminated plain line `Summary:` is excluded as a header, and the
5-character plain line `Short` is kept. -/
theorem extractTasks_example_header_excluded :
    extractTasksFromText "1. Buy milk\n- Call Bob\nSummary:\nShort".toList =
      ["Buy milk".toList, "Call Bob".toList, "Short".toList] := by
  decide

/-- C6: `extractTasksFromText` never fails (it is a total function), and
a null input, a non-string input, and the empty string all yield the
empty list. -/
theorem extractTasks_null_nonString_empty :
    extractTasksJS JSVal.nullV = [] ∧
    extractTasksJS JSVal.nonString = [] ∧
    extractTasksJS (JSVal.str []) = [] :=
  ⟨rfl, rfl, rfl⟩

/-- C9: a marker line can produce a task of length at most 3: `1. ab`
yields the 2-character task `ab`, because the longer-than-3-characters
minimum applies only to plain lines under rule 4, not to tasks produced
by the marker rules. -/
theorem extractTasks_marker_short_task :
    extractTasksFromText "1. ab".toList = [['a', 'b']] ∧
    (['a', 'b'] : Str).length ≤ 3 := by
  constructor
  · decide
  · decide

/-- C10: a marker line ending in a colon still produces a task:
`1. Setup:` yields the task `Setup:`, because the colon-terminated
header exclusion applies only to plain lines under rule 4, not to lines
matched by the marker rules. -/
theorem extractTasks_marker_colon_kept :
    extractTasksFromText "1. Setup:".toList = ["Setup:".toList] ∧
    "Setup:".toList.getLastD ' ' = ':' := by
  constructor
  · decide
  · decide

/-- C2: for every task, the fan-out builds the issue title as the first
100 characters of the task (hence every title has length at most 100),
and the body as the task verbatim when the task is longer than 100
characters, and as `Task: ` followed by the task otherwise. -/
theorem issueParams_title_body (owner repo : Str) (options : IssueOptions)
    (task : Str) :
    (buildIssueParams owner repo options task).title = task.take 100 ∧
    (buildIssueParams owner repo options task).title.length ≤ 100 ∧
    (buildIssueParams owner repo options task).body =
      (if 100 < task.length then task else "Task: ".toList ++ task) := by
  refine ⟨rfl, ?_, rfl⟩
  simp only [buildIssueParams, List.length_take]
  exact Nat.min_le_left _ _

/-- C4: every string returned by `extractTasksFromText` is non-empty and
carries no leading or trailing whitespace (it is its own trim). -/
theorem extractTasks_trimmed_nonempty (text t : Str)
    (h : t ∈ extractTasksFromText text) : t ≠ [] ∧ trim t = t := by
  rw [extractTasksFromText_eq] at h
  rcases mem_jsDedupFilter.mp h with ⟨hmem, hne⟩
  exact ⟨hne, trim_of_mem_rawTasks hmem⟩

/-- Witness for C4 at the concrete input `1. Buy milk`. -/
theorem extractTasks_trimmed_nonempty_witness :
    ("Buy milk".toList ∈ extractTasksFromText "1. Buy milk".toList) ∧
    ("Buy milk".toList ≠ [] ∧ trim "Buy milk".toList = "Buy milk".toList) :=
  ⟨by decide,
    extractTasks_trimmed_nonempty "1. Buy milk".toList "Buy milk".toList
      (by decide)⟩

/-- C3: the extraction output has no duplicate strings; it is a sublist
of the per-line task sequence (so the relative order of any two output
tasks matches the order of the lines that produced them); the position
comparison is governed by the first producing line (`indexOf` into the
raw per-line sequence is the first occurrence); and the output keeps
exactly the non-empty raw tasks. -/
theorem extractTasks_nodup_first_occurrence (text : Str) :
    (extractTasksFromText text).Nodup ∧
    List.Sublist (extractTasksFromText text) (rawTasks text) ∧
    (extractTasksFromText text).Pairwise
      (fun a b => (rawTasks text).indexOf a < (rawTasks text).indexOf b) ∧
    (∀ t, t ∈ extractTasksFromText text ↔ t ∈ rawTasks text ∧ t ≠ []) := by
  rw [extractTasksFromText_eq]
  exact ⟨nodup_jsDedupFilter _, sublist_jsDedupFilter _,
    pairwise_jsDedupFilter _, fun t => mem_jsDedupFilter⟩

/-- C7 counterexample: rule 3 is not dead code.  On the input `-abc`
(hyphen not followed by whitespace) rule 2 cannot fire, rule 3 yields
the task `abc`, while the rule-3-free variant instead emits the whole
line `-abc` under rule 4 — so removing rule 3 changes the output. -/
theorem dashRule_live_counterexample :
    extractTasksFromText "-abc".toList = ["abc".toList] ∧
    extractTasksNoDash "-abc".toList = ["-abc".toList] ∧
    extractTasksFromText "-abc".toList ≠ extractTasksNoDash "-abc".toList := by
  refine ⟨by decide, by decide, by decide⟩

/-- C7 amended: rule 3 is unreachable only on inputs whose trimmed lines
never start with a hyphen that lacks a following whitespace character;
for every such input, removing rule 3 yields exactly the same output.
(In general rule 3 is live: see the counterexample on `-abc`.) -/
theorem dashRule_redundant_when_hyphens_spaced (text : Str)
    (h : ∀ l ∈ linesOf text, hyphenSpaced l = true) :
    extractTasksFromText text = extractTasksNoDash text := by
  have hlines : (linesOf text).filterMap lineTask =
      (linesOf text).filterMap lineTaskNoDash := by
    apply List.filterMap_congr
    intro l hl
    exact lineTask_eq_noDash (mem_linesOf hl).1 (mem_linesOf hl).2 (h l hl)
  unfold extractTasksFromText extractTasksNoDash rawTasks
  rw [hlines]

/-- Witness for the amended C7 on a text whose hyphen lines are all
spaced. -/
theorem dashRule_redundant_witness :
    (∀ l ∈ linesOf "- a\n1. x\nplain line\nhdr:".toList,
      hyphenSpaced l = true) ∧
    extractTasksFromText "- a\n1. x\nplain line\nhdr:".toList =
      extractTasksNoDash "- a\n1. x\nplain line\nhdr:".toList :=
  ⟨by decide,
    dashRule_redundant_when_hyphens_spaced
      "- a\n1. x\nplain line\nhdr:".toList (by decide)⟩

/-- C8 counterexample: the success record does not contain the
originating task text.  With a client that always resolves with number
7, title `t`, url `u`, two different single-task batches (`aaaa` and
`bbbb`) produce identical results, namely `[success 7 t u]` — which
could not happen if the success record carried the task. -/
theorem successRecord_no_task_counterexample :
    createGitHubIssues (fun _ _ => Except.ok ⟨7, ['t'], ['u']⟩) [] []
        ["aaaa".toList] ⟨[], none⟩ =
      createGitHubIssues (fun _ _ => Except.ok ⟨7, ['t'], ['u']⟩) [] []
        ["bbbb".toList] ⟨[], none⟩ ∧
    createGitHubIssues (fun _ _ => Except.ok ⟨7, ['t'], ['u']⟩) [] []
        ["aaaa".toList] ⟨[], none⟩ = [IssueResult.success 7 ['t'] ['u']] ∧
    "aaaa".toList ≠ "bbbb".toList :=
  ⟨rfl, rfl, by decide⟩

/-- C8 amended: for every task whose issue creation succeeds, the
fan-out's success record contains exactly the issue number, title and
url taken from the client's response — and nothing else; the
originating task text appears only in failure records. -/
theorem successRecord_fields (github : GitHubClient) (owner repo : Str)
    (tasks : List Str) (options : IssueOptions) (i : Nat) (d : RespData)
    (hi : i < tasks.length)
    (hok : github i (buildIssueParams owner repo options (tasks.getD i []))
      = Except.ok d) :
    (createGitHubIssues github owner repo tasks options).getD i
        (IssueResult.failure [] []) =
      IssueResult.success d.number d.title d.html_url := by
  rw [List.getD_eq_getElem?_getD, createGitHubIssues_getElem?]
  have ht : tasks[i]? = some tasks[i] := List.getElem?_eq_getElem hi
  have ht' : tasks.getD i [] = tasks[i] := by
    rw [List.getD_eq_getElem?_getD, ht]
    rfl
  rw [ht'] at hok
  rw [ht, Option.map_some']
  simp [hok]

/-- Witness for the amended C8: one successful task. -/
theorem successRecord_fields_witness :
    (0 < (["do it".toList] : List Str).length) ∧
    (((fun _ _ => Except.ok ⟨9, ['x'], ['y']⟩) : GitHubClient) 0
        (buildIssueParams [] [] ⟨[], none⟩
          ((["do it".toList] : List Str).getD 0 []))
      = Except.ok (⟨9, ['x'], ['y']⟩ : RespData)) ∧
    (createGitHubIssues (fun _ _ => Except.ok ⟨9, ['x'], ['y']⟩) [] []
        ["do it".toList] ⟨[], none⟩).getD 0 (IssueResult.failure [] []) =
      IssueResult.success 9 ['x'] ['y'] :=
  ⟨by decide, rfl,
    successRecord_fields (fun _ _ => Except.ok ⟨9, ['x'], ['y']⟩) [] []
      ["do it".toList] ⟨[], none⟩ 0 ⟨9, ['x'], ['y']⟩ (by decide) rfl⟩

theorem length_filter_not {α : Type} (p : α → Bool) (l : List α) :
    (l.filter fun a => !(p a)).length = l.length - (l.filter p).length := by
  induction l with
  | nil => rfl
  | cons x xs ih =>
    cases hx : p x
    · have hle := List.length_filter_le p xs
      simp [List.filter_cons, hx, ih]
      omega
    · simp [List.filter_cons, hx, ih]

/-- C1: the fan-out returns one result per input task in input order for
every pattern of client failures; when the client rejects exactly the
call for task `k` of `N` and resolves all others, the result has length
`N`, its failure pattern is the indicator of index `k` (so `N - 1`
success records and exactly one failure record, at index `k`), the
failure record carries task `k`'s text, and every other index — later
ones included — still holds a success record. -/
theorem createIssues_isolates_single_failure (github : GitHubClient)
    (owner repo : Str) (tasks : List Str) (options : IssueOptions)
    (k : Nat) (hk : k < tasks.length)
    (hfail : ∀ p, ∃ e, github k p = Except.error e)
    (hok : ∀ i p, i ≠ k → ∃ d, github i p = Except.ok d) :
    (∀ gh2 : GitHubClient,
      (createGitHubIssues gh2 owner repo tasks options).length =
        tasks.length) ∧
    (createGitHubIssues github owner repo tasks options).map
        IssueResult.isFailure =
      (List.range tasks.length).map (fun j => decide (j = k)) ∧
    (∃ e, (createGitHubIssues github owner repo tasks options).getD k
        (IssueResult.failure [] []) =
      IssueResult.failure (tasks.getD k []) e) ∧
    ((createGitHubIssues github owner repo tasks options).filter
        IssueResult.isFailure).length = 1 ∧
    ((createGitHubIssues github owner repo tasks options).filter
        fun r => !(IssueResult.isFailure r)).length = tasks.length - 1 ∧
    (∀ j, j < tasks.length → j ≠ k → ∃ n t u,
      (createGitHubIssues github owner repo tasks options).getD j
          (IssueResult.failure [] []) = IssueResult.success n t u) := by
  have hpat : (createGitHubIssues github owner repo tasks options).map
      IssueResult.isFailure =
      (List.range tasks.length).map fun j => decide (j = k) := by
    unfold createGitHubIssues
    rw [List.map_map, ← List.enum_map_fst, List.map_map]
    apply List.map_congr_left
    intro p hp
    simp only [Function.comp]
    by_cases hpk : p.1 = k
    · rcases hfail (buildIssueParams owner repo options p.2) with ⟨e, he⟩
      rw [hpk, he]
      simp [IssueResult.isFailure, hpk]
    · rcases hok p.1 (buildIssueParams owner repo options p.2) hpk with ⟨d, hd⟩
      rw [hd]
      simp [IssueResult.isFailure, hpk]
  have hflen : ((createGitHubIssues github owner repo tasks options).filter
      IssueResult.isFailure).length = 1 := by
    rw [← List.countP_eq_length_filter]
    have h1 : (createGitHubIssues github owner repo tasks options).countP
        IssueResult.isFailure =
        ((createGitHubIssues github owner repo tasks options).map
          IssueResult.isFailure).countP (fun b => b) := by
      rw [List.countP_map]
      rfl
    rw [h1, hpat, List.countP_map]
    exact countP_range_eq_one hk
  refine ⟨fun gh2 => createGitHubIssues_length gh2 owner repo tasks options,
    hpat, ?_, hflen, ?_, ?_⟩
  · have ht : tasks[k]? = some tasks[k] := List.getElem?_eq_getElem hk
    have ht' : tasks.getD k [] = tasks[k] := by
      rw [List.getD_eq_getElem?_getD, ht]
      rfl
    rcases hfail (buildIssueParams owner repo options tasks[k]) with ⟨e, he⟩
    refine ⟨e, ?_⟩
    rw [List.getD_eq_getElem?_getD, createGitHubIssues_getElem?, ht,
      Option.map_some', ht']
    simp [he]
  · rw [length_filter_not, hflen,
      createGitHubIssues_length github owner repo tasks options]
  · intro j hj hjk
    have ht : tasks[j]? = some tasks[j] := List.getElem?_eq_getElem hj
    rcases hok j (buildIssueParams owner repo options tasks[j]) hjk with ⟨d, hd⟩
    refine ⟨d.number, d.title, d.html_url, ?_⟩
    rw [List.getD_eq_getElem?_getD, createGitHubIssues_getElem?, ht,
      Option.map_some']
    simp [hd]

/-- Witness for C1: a two-task batch where the client rejects the first
call and resolves the second. -/
theorem createIssues_isolates_single_failure_witness :
    (0 < (["aa".toList, "bb".toList] : List Str).length) ∧
    (∀ p, ∃ e,
      ((fun i _ => if i = 0 then Except.error ['E']
          else Except.ok ⟨5, ['t'], ['u']⟩) : GitHubClient) 0 p =
        Except.error e) ∧
    (∀ i p, i ≠ 0 → ∃ d,
      ((fun i _ => if i = 0 then Except.error ['E']
          else Except.ok ⟨5, ['t'], ['u']⟩) : GitHubClient) i p =
        Except.ok d) ∧
    ((∀ gh2 : GitHubClient,
      (createGitHubIssues gh2 [] [] ["aa".toList, "bb".toList]
          ⟨[], none⟩).length =
        (["aa".toList, "bb".toList] : List Str).length) ∧
    (createGitHubIssues
        ((fun i _ => if i = 0 then Except.error ['E']
          else Except.ok ⟨5, ['t'], ['u']⟩) : GitHubClient)
        [] [] ["aa".toList, "bb".toList] ⟨[], none⟩).map
        IssueResult.isFailure =
      (List.range (["aa".toList, "bb".toList] : List Str).length).map
        (fun j => decide (j = 0)) ∧
    (∃ e, (createGitHubIssues
        ((fun i _ => if i = 0 then Except.error ['E']
          else Except.ok ⟨5, ['t'], ['u']⟩) : GitHubClient)
        [] [] ["aa".toList, "bb".toList] ⟨[], none⟩).getD 0
        (IssueResult.failure [] []) =
      IssueResult.failure
        ((["aa".toList, "bb".toList] : List Str).getD 0 []) e) ∧
    ((createGitHubIssues
        ((fun i _ => if i = 0 then Except.error ['E']
          else Except.ok ⟨5, ['t'], ['u']⟩) : GitHubClient)
        [] [] ["aa".toList, "bb".toList] ⟨[], none⟩).filter
        IssueResult.isFailure).length = 1 ∧
    ((createGitHubIssues
        ((fun i _ => if i = 0 then Except.error ['E']
          else Except.ok ⟨5, ['t'], ['u']⟩) : GitHubClient)
        [] [] ["aa".toList, "bb".toList] ⟨[], none⟩).filter
        fun r => !(IssueResult.isFailure r)).length =
      (["aa".toList, "bb".toList] : List Str).length - 1 ∧
    (∀ j, j < (["aa".toList, "bb".toList] : List Str).length → j ≠ 0 →
      ∃ n t u, (createGitHubIssues
        ((fun i _ => if i = 0 then Except.error ['E']
          else Except.ok ⟨5, ['t'], ['u']⟩) : GitHubClient)
        [] [] ["aa".toList, "bb".toList] ⟨[], none⟩).getD j
          (IssueResult.failure [] []) = IssueResult.success n t u)) :=
  ⟨by decide, fun p => ⟨['E'], rfl⟩,
    fun i p hi => ⟨⟨5, ['t'], ['u']⟩, by simp [hi]⟩,
    createIssues_isolates_single_failure
      ((fun i _ => if i = 0 then Except.error ['E']
        else Except.ok ⟨5, ['t'], ['u']⟩) : GitHubClient)
      [] [] ["aa".toList, "bb".toList] ⟨[], none⟩ 0 (by decide)
      (fun p => ⟨['E'], rfl⟩)
      (fun i p hi => ⟨⟨5, ['t'], ['u']⟩, by simp [hi]⟩)⟩
